import Mathlib

/-!
Verification of the DNS TSIG signing/validation engine (src/libs/dns/tsig.py).

Shallow embedding conventions:
* byte strings are `List Nat`, each entry intended `< 256`;
* `struct.pack`/`struct.unpack` of `!H`/`!I` become `pack16`/`pack32` and
  `unpack16at`/`unpack32at`; a `struct` range or length failure is the
  explicit error `structError`;
* the external HMAC provider is a parameter `H : DigestFn`: an HMAC context
  (`HCtx`) records the secret, the digest primitive and the concatenation of
  all bytes fed to it, and `digest` applies `H`;
* domain names (collaborator `dns.name`, out of scope for the repository) are
  lists of labels (`List (List Nat)`); `toDigestable` and `from_wire` are
  modelled from the spec's description of the name-wire encoding;
* Python exceptions become `Except TsigError`.
-/

namespace Tsig

abbrev Bytes := List Nat

/-- Big-endian 2-byte encoding, `struct.pack` with format `!H`. -/
def pack16 (n : Nat) : Bytes := [n / 256 % 256, n % 256]

/-- Big-endian 4-byte encoding, `struct.pack` with format `!I`. -/
def pack32 (n : Nat) : Bytes :=
  [n / 16777216 % 256, n / 65536 % 256, n / 256 % 256, n % 256]

/-- Big-endian 2-byte read at offset `i`, `struct.unpack` of `wire[i:i+2]`. -/
def unpack16at (w : Bytes) (i : Nat) : Nat :=
  match w.drop i with
  | b0 :: b1 :: _ => 256 * b0 + b1
  | _ => 0

/-- Big-endian 4-byte read at offset `i`, `struct.unpack` of `wire[i:i+4]`. -/
def unpack32at (w : Bytes) (i : Nat) : Nat :=
  match w.drop i with
  | b0 :: b1 :: b2 :: b3 :: _ => ((b0 * 256 + b1) * 256 + b2) * 256 + b3
  | _ => 0

/-- ASCII lower-casing of one byte, the case folding dns.name applies. -/
def canonByte (c : Nat) : Nat := if 65 ≤ c ∧ c ≤ 90 then c + 32 else c

abbrev Label := List Nat

/-- A domain name as its list of labels (root label left implicit). -/
abbrev Name := List Label

def canonLabel (l : Label) : Label := l.map canonByte

/-- Case-insensitive name equality, the equality dns.name.Name uses for
dictionary membership. -/
def nameEq (a b : Name) : Bool := a.map canonLabel == b.map canonLabel

/-- Modelled from the spec: the collaborator `dns.name.Name.to_digestable`,
the canonical (lower-cased) wire form of a name: each label length-prefixed,
then the root's zero byte. -/
def toDigestable (n : Name) : Bytes :=
  n.foldr (fun l acc => l.length :: (canonLabel l ++ acc)) [0]

/-- Modelled from the spec: the collaborator `dns.name.from_wire` on
uncompressed names, parsing length-prefixed labels from offset `p` until the
root's zero byte and returning the name with the number of bytes used.
Compression pointers and label types above 63 are parse failures (the TSIG
rdata produced by `sign` never contains them). `fuel` only forces
termination; `from_wire` supplies enough of it. -/
def from_wire_aux (w : Bytes) : Nat → Nat → Option (Name × Nat)
  | 0, _ => none
  | fuel + 1, p =>
    match w.drop p with
    | [] => none
    | c :: _ =>
      if c = 0 then some ([], 1)
      else if c ≤ 63 then
        match from_wire_aux w fuel (p + 1 + c) with
        | some (ls, used) => some (((w.drop (p + 1)).take c) :: ls, 1 + c + used)
        | none => none
      else none

def from_wire (w : Bytes) (p : Nat) : Option (Name × Nat) :=
  from_wire_aux w (w.length + 1) p

/-- Modelled from the spec: the collaborator `dns.name.from_text`, splitting a
textual name on the dots into labels (one trailing dot, the absolute-name
marker, is dropped). -/
def from_text (s : Bytes) : Name :=
  let p := s.splitOn 46
  if p.getLast? = some [] then p.dropLast else p

/-- The six digest primitives the algorithm table can select. -/
inductive DigestMod
  | md5
  | sha1
  | sha224
  | sha256
  | sha384
  | sha512
deriving DecidableEq, Repr

/-- The external HMAC provider: digest primitive, secret, fed bytes to MAC. -/
abbrev DigestFn := DigestMod → Bytes → Bytes → Bytes

/-- An `hmac.HMAC` object: the secret and primitive it was opened with and
the bytes fed so far. -/
structure HCtx where
  secret : Bytes
  dm : DigestMod
  data : Bytes
deriving DecidableEq, Repr

def HCtx.update (c : HCtx) (b : Bytes) : HCtx := { c with data := c.data ++ b }

def HCtx.digest (H : DigestFn) (c : HCtx) : Bytes := H c.dm c.secret c.data

/-- The failure taxonomy: the exceptions tsig.py raises.  `structError` is a
`struct.error` (short or out-of-range packed field), `nameError` a dns.name
parse failure, `contextError` the `AttributeError` of using a `None` digest
context on a continuation call. -/
inductive TsigError
  | formatError
  | badTime
  | badSignature
  | peerBadSignature
  | peerBadKey
  | peerBadTime
  | peerBadTruncation
  | peerError (code : Nat)
  | unsupportedAlgorithm
  | constraintViolation
  | structError
  | nameError
  | contextError
deriving DecidableEq, Repr

/-- Textual bytes of "HMAC-MD5.SIG-ALG.REG.INT". -/
def txtHmacMd5 : Bytes :=
  [72, 77, 65, 67, 45, 77, 68, 53, 46, 83, 73, 71, 45, 65, 76, 71, 46,
   82, 69, 71, 46, 73, 78, 84]

/-- Textual bytes of "hmac-sha1". -/
def txtHmacSha1 : Bytes := [104, 109, 97, 99, 45, 115, 104, 97, 49]

/-- Textual bytes of "hmac-sha224". -/
def txtHmacSha224 : Bytes := [104, 109, 97, 99, 45, 115, 104, 97, 50, 50, 52]

/-- Textual bytes of "hmac-sha256". -/
def txtHmacSha256 : Bytes := [104, 109, 97, 99, 45, 115, 104, 97, 50, 53, 54]

/-- Textual bytes of "hmac-sha384". -/
def txtHmacSha384 : Bytes := [104, 109, 97, 99, 45, 115, 104, 97, 51, 56, 52]

/-- Textual bytes of "hmac-sha512". -/
def txtHmacSha512 : Bytes := [104, 109, 97, 99, 45, 115, 104, 97, 53, 49, 50]

def HMAC_MD5 : Name := from_text txtHmacMd5
def HMAC_SHA1 : Name := from_text txtHmacSha1
def HMAC_SHA224 : Name := from_text txtHmacSha224
def HMAC_SHA256 : Name := from_text txtHmacSha256
def HMAC_SHA384 : Name := from_text txtHmacSha384
def HMAC_SHA512 : Name := from_text txtHmacSha512

def default_algorithm : Name := HMAC_MD5

def BADSIG : Nat := 16
def BADKEY : Nat := 17
def BADTIME : Nat := 18
def BADTRUNC : Nat := 22

/-- The `_hashes` registry built by `_setup_hashes`, in its insertion order.
Modelled from the spec for the collaborator `dns.hash`: the provider supports
all six primitives, so `_maybe_add_hash` omits none of them. -/
def hashes : List (Name × DigestMod) :=
  [(HMAC_SHA224, .sha224), (HMAC_SHA256, .sha256), (HMAC_SHA384, .sha384),
   (HMAC_SHA512, .sha512), (HMAC_SHA1, .sha1), (HMAC_MD5, .md5)]

/-- Dictionary lookup in `_hashes`, case-insensitive as dns.name equality is. -/
def lookupHash (n : Name) : Option DigestMod :=
  (hashes.find? (fun p => nameEq p.1 n)).map (·.2)

/-- An algorithm argument: either a textual name (a `str`) or an
already-parsed `dns.name.Name`, the two cases `get_algorithm` distinguishes. -/
inductive AlgId
  | text (s : Bytes)
  | name (n : Name)
deriving DecidableEq, Repr

/-- The normalization step of `get_algorithm`: a textual identifier is turned
into a name with `dns.name.from_text`. -/
def normalize : AlgId → Name
  | .text s => from_text s
  | .name n => n

/-- Embedding of `get_algorithm`: normalize, then look the name up in the
registry, returning its digestable wire form with the digest primitive, or
`NotImplementedError` (here `unsupportedAlgorithm`) when absent.  Modelled
for a modern runtime, so the historical interpreter-version refusal of
SHA-384/512 does not fire. -/
def get_algorithm (a : AlgId) : Except TsigError (Bytes × DigestMod) :=
  match lookupHash (normalize a) with
  | some dm => .ok (toDigestable (normalize a), dm)
  | none => .error .unsupportedAlgorithm

/-- The wire value of dns.rdataclass.ANY. -/
def classANY : Nat := 255

/-- Embedding of `sign`.  Faithful to the statement order of the source:
`get_algorithm` first; on a first message a fresh context is opened and a
non-empty request MAC is fed length-prefixed; the explicit original id is
packed (range-checked by `struct`), then fed with `wire[2:]`; on a first
message the key name, class ANY and zero TTL follow; `time_mac` packs the
48-bit time split high-16/low-32 with the fudge; over-long other data raises
`ValueError` (`constraintViolation`); on a first message `pre_mac` and
`post_mac` are fed, otherwise only `time_mac`; the digest is finalized and
the rdata assembled; with `multi` a fresh chained context seeded with the
length-prefixed MAC is returned. -/
def sign (H : DigestFn) (wire : Bytes) (keyname : Name) (secret : Bytes)
    (time fudge original_id error : Nat) (other_data request_mac : Bytes)
    (ctx : Option HCtx) (multi first : Bool) (algorithm : AlgId) :
    Except TsigError (Bytes × Bytes × Option HCtx) :=
  match get_algorithm algorithm with
  | .error e => .error e
  | .ok (algorithm_name, digestmod) =>
    let start : Except TsigError (Option HCtx) :=
      if first then
        let c : HCtx := ⟨secret, digestmod, []⟩
        if request_mac.length > 0 then
          if request_mac.length < 65536 then
            .ok (some ((c.update (pack16 request_mac.length)).update request_mac))
          else .error .structError
        else .ok (some c)
      else .ok ctx
    match start with
    | .error e => .error e
    | .ok octx =>
      if original_id < 65536 then
        match octx with
        | none => .error .contextError
        | some c0 =>
          let id := pack16 original_id
          let c1 := (c0.update id).update (wire.drop 2)
          let c2 :=
            if first then
              ((c1.update (toDigestable keyname)).update
                (pack16 classANY)).update (pack32 0)
            else c1
          if fudge < 65536 then
            let time_mac :=
              pack16 (time / 2 ^ 32 % 2 ^ 16) ++ pack32 (time % 2 ^ 32) ++
                pack16 fudge
            let pre_mac := algorithm_name ++ time_mac
            if other_data.length > 65535 then .error .constraintViolation
            else if error < 65536 then
              let post_mac :=
                pack16 error ++ pack16 other_data.length ++ other_data
              let c3 :=
                if first then (c2.update pre_mac).update post_mac
                else c2.update time_mac
              let mac := c3.digest H
              if mac.length < 65536 then
                let tsig_rdata :=
                  pre_mac ++ pack16 mac.length ++ mac ++ id ++ post_mac
                let nctx : Option HCtx :=
                  if multi then
                    some (((⟨secret, digestmod, []⟩ : HCtx).update
                      (pack16 mac.length)).update mac)
                  else none
                .ok (tsig_rdata, mac, nctx)
              else .error .structError
            else .error .structError
          else .error .structError
      else .error .structError

/-- The fields `validate` parses out of the TSIG rdata, with the offset
(`current` in the source) reached after the parse. -/
structure TsigFields where
  aname : Name
  time : Nat
  fudge : Nat
  mac : Bytes
  original_id : Nat
  error : Nat
  other_data : Bytes
  endPos : Nat
deriving DecidableEq, Repr

/-- The rdata parse of `validate` (source lines 143-156): algorithm name,
48-bit time, fudge and MAC length from ten fixed bytes, the MAC, then
original id, error and other-data length from six fixed bytes, then the
other data.  Slices of the MAC and other data are length-tolerant as Python
slices are; the fixed-width `struct.unpack` reads fail when the wire is too
short. -/
def parse_tsig (wire : Bytes) (tsig_rdata : Nat) : Except TsigError TsigFields :=
  match from_wire wire tsig_rdata with
  | none => .error .nameError
  | some (aname, used) =>
    let current := tsig_rdata + used
    if wire.length < current + 10 then .error .structError
    else
      let upper_time := unpack16at wire current
      let lower_time := unpack32at wire (current + 2)
      let fudge := unpack16at wire (current + 6)
      let mac_size := unpack16at wire (current + 8)
      let current2 := current + 10
      let mac := (wire.drop current2).take mac_size
      let current3 := current2 + mac_size
      if wire.length < current3 + 6 then .error .structError
      else
        let original_id := unpack16at wire current3
        let err := unpack16at wire (current3 + 2)
        let other_size := unpack16at wire (current3 + 4)
        let current4 := current3 + 6
        let other_data := (wire.drop current4).take other_size
        .ok ⟨aname, upper_time * 2 ^ 32 + lower_time, fudge, mac, original_id,
             err, other_data, current4 + other_size⟩

/-- The peer-error translation of `validate` (source lines 160-169): the
PeerErrorTaxonomy applied to a nonzero parsed error code. -/
def peer_error_of (code : Nat) : TsigError :=
  if code = BADSIG then .peerBadSignature
  else if code = BADKEY then .peerBadKey
  else if code = BADTIME then .peerBadTime
  else if code = BADTRUNC then .peerBadTruncation
  else .peerError code

/-- Embedding of `validate`: read the count field at bytes [10,12) and
require it nonzero; rebuild `new_wire` with the count decremented and the
bytes up to `tsig_start`; parse the rdata fields and require they consume
`tsig_rdlen` exactly; translate a nonzero peer error; check the time window;
recompute the MAC by signing `new_wire` with the parsed fields and the parsed
algorithm name; compare. -/
def validate (H : DigestFn) (wire : Bytes) (keyname : Name) (secret : Bytes)
    (now : Nat) (request_mac : Bytes) (tsig_start tsig_rdata tsig_rdlen : Nat)
    (ctx : Option HCtx) (multi first : Bool) : Except TsigError (Option HCtx) :=
  if wire.length < 12 then .error .structError
  else
    let adcount := unpack16at wire 10
    if adcount = 0 then .error .formatError
    else
      let new_wire :=
        wire.take 10 ++ pack16 (adcount - 1) ++ (wire.drop 12).take (tsig_start - 12)
      match parse_tsig wire tsig_rdata with
      | .error e => .error e
      | .ok f =>
        if f.endPos ≠ tsig_rdata + tsig_rdlen then .error .formatError
        else if f.error ≠ 0 then .error (peer_error_of f.error)
        else if (now : Int) < (f.time : Int) - (f.fudge : Int) ∨
            (f.time : Int) + (f.fudge : Int) < (now : Int) then .error .badTime
        else
          match sign H new_wire keyname secret f.time f.fudge f.original_id
              f.error f.other_data request_mac ctx multi first (.name f.aname) with
          | .error e => .error e
          | .ok (_, our_mac, ctx2) =>
            if our_mac ≠ f.mac then .error .badSignature else .ok ctx2

/-- Embedding of `get_algorithm_and_mac` (the spec's `peek`): parse the
algorithm name, read the ten fixed bytes for time/fudge/MAC length, slice the
MAC, and fail with `FormError` only when the bytes consumed run strictly past
`tsig_rdlen`. -/
def get_algorithm_and_mac (wire : Bytes) (tsig_rdata tsig_rdlen : Nat) :
    Except TsigError (Name × Bytes) :=
  match from_wire wire tsig_rdata with
  | none => .error .nameError
  | some (aname, used) =>
    let current := tsig_rdata + used
    if wire.length < current + 10 then .error .structError
    else
      let mac_size := unpack16at wire (current + 8)
      let current2 := current + 10
      let mac := (wire.drop current2).take mac_size
      let current3 := current2 + mac_size
      if tsig_rdata + tsig_rdlen < current3 then .error .formatError
      else .ok (aname, mac)

instance {e a : Type} [DecidableEq e] [DecidableEq a] : DecidableEq (Except e a)
  | .ok x, .ok y =>
    if h : x = y then .isTrue (by rw [h]) else .isFalse (by simp [h])
  | .error x, .error y =>
    if h : x = y then .isTrue (by rw [h]) else .isFalse (by simp [h])
  | .ok _, .error _ => .isFalse (by simp)
  | .error _, .ok _ => .isFalse (by simp)

/-! Basic byte-level lemmas. -/

theorem pack16_length (n : Nat) : (pack16 n).length = 2 := rfl

theorem pack32_length (n : Nat) : (pack32 n).length = 4 := rfl

theorem drop_add (w : Bytes) (i j : Nat) : w.drop (i + j) = (w.drop i).drop j := by
  rw [List.drop_drop, Nat.add_comm]

theorem unpack16at_cons {w : Bytes} {i b0 b1 : Nat} {rest : Bytes}
    (h : w.drop i = b0 :: b1 :: rest) : unpack16at w i = 256 * b0 + b1 := by
  unfold unpack16at
  rw [h]

theorem unpack32at_cons {w : Bytes} {i b0 b1 b2 b3 : Nat} {rest : Bytes}
    (h : w.drop i = b0 :: b1 :: b2 :: b3 :: rest) :
    unpack32at w i = ((b0 * 256 + b1) * 256 + b2) * 256 + b3 := by
  unfold unpack32at
  rw [h]

theorem unpack16at_pack16 {w : Bytes} {i n : Nat} {rest : Bytes}
    (h : w.drop i = pack16 n ++ rest) (hn : n < 65536) : unpack16at w i = n := by
  rw [unpack16at_cons (by simpa [pack16] using h)]
  omega

theorem unpack32at_pack32 {w : Bytes} {i n : Nat} {rest : Bytes}
    (h : w.drop i = pack32 n ++ rest) (hn : n < 4294967296) : unpack32at w i = n := by
  rw [unpack32at_cons (by simpa [pack32] using h)]
  omega

theorem pack16_eq_of_bytes {b0 b1 : Nat} (h0 : b0 < 256) (h1 : b1 < 256) :
    pack16 (256 * b0 + b1) = [b0, b1] := by
  simp only [pack16, List.cons.injEq, and_true]
  omega

/-! Lemmas about the name-wire encoding and its parse. -/

def wfName (n : Name) : Prop := ∀ l ∈ n, 1 ≤ l.length ∧ l.length ≤ 63

theorem canonLabel_length (l : Label) : (canonLabel l).length = l.length := by
  simp [canonLabel]

theorem toDigestable_nil : toDigestable [] = [0] := rfl

theorem toDigestable_cons (l : Label) (n : Name) :
    toDigestable (l :: n) = l.length :: (canonLabel l ++ toDigestable n) := rfl

theorem toDigestable_length_ge (n : Name) : n.length + 1 ≤ (toDigestable n).length := by
  induction n with
  | nil => simp [toDigestable_nil]
  | cons l t ih => simp only [toDigestable_cons, List.length_cons, List.length_append]; omega

theorem from_wire_aux_parse {w : Bytes} {n : Name} (hwf : wfName n) :
    ∀ fuel p rest, n.length + 1 ≤ fuel → w.drop p = toDigestable n ++ rest →
    from_wire_aux w fuel p = some (n.map canonLabel, (toDigestable n).length) := by
  induction n with
  | nil =>
    intro fuel p rest hf hd
    match fuel, hf with
    | fuel + 1, _ =>
      rw [toDigestable_nil] at hd
      simp only [from_wire_aux, hd, List.cons_append, List.nil_append, if_pos rfl]
      simp [toDigestable_nil]
  | cons l t ih =>
    intro fuel p rest hf hd
    match fuel, hf with
    | fuel + 1, hf =>
      have hwfl : 1 ≤ l.length ∧ l.length ≤ 63 := hwf l (List.mem_cons_self l t)
      have hwft : wfName t := fun x hx => hwf x (List.mem_cons_of_mem l hx)
      rw [toDigestable_cons] at hd
      have hd' : w.drop p = l.length :: (canonLabel l ++ (toDigestable t ++ rest)) := by
        simpa [List.append_assoc] using hd
      have hdrop1 : w.drop (p + 1) = canonLabel l ++ (toDigestable t ++ rest) := by
        rw [drop_add, hd']
        rfl
      have hdropl : w.drop (p + 1 + l.length) = toDigestable t ++ rest := by
        rw [drop_add w (p + 1) l.length, hdrop1]
        exact List.drop_left' (canonLabel_length l)
      have hrec := ih hwft fuel (p + 1 + l.length) rest (by simpa using hf) hdropl
      have htake : (w.drop (p + 1)).take l.length = canonLabel l := by
        rw [hdrop1]
        exact List.take_left' (canonLabel_length l)
      simp only [from_wire_aux, hd']
      rw [if_neg (by omega), if_pos (by omega), hrec, htake]
      simp only [toDigestable_cons, List.map_cons, Option.some.injEq, Prod.mk.injEq,
        List.length_cons, List.length_append, canonLabel_length]
      exact ⟨trivial, by omega⟩

theorem from_wire_parse {w : Bytes} {p : Nat} {n : Name} {rest : Bytes}
    (hwf : wfName n) (hd : w.drop p = toDigestable n ++ rest) :
    from_wire w p = some (n.map canonLabel, (toDigestable n).length) := by
  apply from_wire_aux_parse hwf (w.length + 1) p rest ?_ hd
  have h1 : (w.drop p).length = (toDigestable n).length + rest.length := by
    rw [hd, List.length_append]
  have h2 : (w.drop p).length ≤ w.length := by
    rw [List.length_drop]; omega
  have h3 := toDigestable_length_ge n
  omega

/-! Lemmas about canonicalization and the algorithm registry. -/

theorem canonByte_canonByte (c : Nat) : canonByte (canonByte c) = canonByte c := by
  unfold canonByte
  split_ifs <;> omega

theorem canonLabel_canonLabel (l : Label) : canonLabel (canonLabel l) = canonLabel l := by
  simp [canonLabel, List.map_map, Function.comp_def, canonByte_canonByte]

theorem map_canonLabel_map_canonLabel (n : Name) :
    (n.map canonLabel).map canonLabel = n.map canonLabel := by
  simp [List.map_map, Function.comp_def, canonLabel_canonLabel]

theorem toDigestable_map_canonLabel (n : Name) :
    toDigestable (n.map canonLabel) = toDigestable n := by
  induction n with
  | nil => rfl
  | cons l t ih =>
    simp only [List.map_cons, toDigestable_cons, canonLabel_canonLabel, canonLabel_length, ih]

theorem nameEq_map_canonLabel (a b : Name) : nameEq a (b.map canonLabel) = nameEq a b := by
  simp [nameEq, List.map_map, Function.comp_def, canonLabel_canonLabel]

theorem lookupHash_map_canonLabel (n : Name) : lookupHash (n.map canonLabel) = lookupHash n := by
  unfold lookupHash
  have : (fun p : Name × DigestMod => nameEq p.1 (n.map canonLabel)) =
      (fun p : Name × DigestMod => nameEq p.1 n) := by
    funext p
    exact nameEq_map_canonLabel p.1 n
  rw [this]

theorem get_algorithm_ok {a : AlgId} {an : Bytes} {dm : DigestMod}
    (h : get_algorithm a = .ok (an, dm)) :
    an = toDigestable (normalize a) ∧ lookupHash (normalize a) = some dm := by
  unfold get_algorithm at h
  cases hl : lookupHash (normalize a) with
  | none => rw [hl] at h; exact absurd h (by simp)
  | some dm' =>
    rw [hl] at h
    simp only [Except.ok.injEq, Prod.mk.injEq] at h
    exact ⟨h.1.symm, by rw [h.2]⟩

theorem get_algorithm_err {a : AlgId} {e : TsigError} (h : get_algorithm a = .error e) :
    e = .unsupportedAlgorithm := by
  unfold get_algorithm at h
  cases hl : lookupHash (normalize a) with
  | none => rw [hl] at h; simpa using h.symm
  | some dm' => rw [hl] at h; exact absurd h (by simp)

theorem get_algorithm_name_canon (n : Name) :
    get_algorithm (.name (n.map canonLabel)) = get_algorithm (.name n) := by
  unfold get_algorithm
  simp only [normalize, lookupHash_map_canonLabel, toDigestable_map_canonLabel]

theorem hashes_wf : ∀ p ∈ hashes, ∀ l ∈ p.1, 1 ≤ l.length ∧ l.length ≤ 63 := by decide

theorem wf_of_lookup {n : Name} {dm : DigestMod} (h : lookupHash n = some dm) : wfName n := by
  unfold lookupHash at h
  cases hf : hashes.find? (fun p => nameEq p.1 n) with
  | none => rw [hf] at h; exact absurd h (by simp)
  | some p =>
    have hpm : p ∈ hashes := List.mem_of_find?_eq_some hf
    have hpe : nameEq p.1 n = true := by simpa using List.find?_some hf
    have hmaps : p.1.map canonLabel = n.map canonLabel := by
      simpa [nameEq] using hpe
    intro l hl
    have hmem : canonLabel l ∈ n.map canonLabel := List.mem_map_of_mem canonLabel hl
    rw [← hmaps] at hmem
    obtain ⟨l', hl', he⟩ := List.mem_map.1 hmem
    have hlen : l.length = l'.length := by
      have h1 := canonLabel_length l
      have h2 := canonLabel_length l'
      rw [he] at h2
      omega
    have := hashes_wf p hpm l' hl'
    omega

/-! Lemmas about the shape and failure modes of `sign`. -/

theorem sign_algid_congr (H : DigestFn) (wire : Bytes) (keyname : Name) (secret : Bytes)
    (time fudge original_id error : Nat) (other_data request_mac : Bytes)
    (ctx : Option HCtx) (multi first : Bool) {a1 a2 : AlgId}
    (h : get_algorithm a1 = get_algorithm a2) :
    sign H wire keyname secret time fudge original_id error other_data request_mac ctx multi first a1 =
    sign H wire keyname secret time fudge original_id error other_data request_mac ctx multi first a2 := by
  unfold sign
  rw [h]

theorem sign_shape {H : DigestFn} {wire : Bytes} {keyname : Name} {secret : Bytes}
    {time fudge original_id error : Nat} {other_data request_mac : Bytes}
    {ctx : Option HCtx} {multi first : Bool} {algorithm : AlgId}
    {an : Bytes} {dm : DigestMod} {r mc : Bytes} {c' : Option HCtx}
    (halg : get_algorithm algorithm = .ok (an, dm))
    (h : sign H wire keyname secret time fudge original_id error other_data request_mac
      ctx multi first algorithm = .ok (r, mc, c')) :
    r = an ++ (pack16 (time / 2 ^ 32 % 2 ^ 16) ++ (pack32 (time % 2 ^ 32) ++ (pack16 fudge ++
        (pack16 mc.length ++ (mc ++ (pack16 original_id ++
        (pack16 error ++ (pack16 other_data.length ++ other_data)))))))) ∧
    mc.length < 65536 ∧ original_id < 65536 ∧ fudge < 65536 ∧ error < 65536 ∧
    other_data.length ≤ 65535 := by
  unfold sign at h
  rw [halg] at h
  dsimp only at h
  repeat' split at h
  all_goals first
  | exact Except.noConfusion h
  | (simp only [Except.ok.injEq, Prod.mk.injEq] at h
     obtain ⟨hr, hmc, hc⟩ := h
     subst hmc
     refine ⟨?_, by omega, by omega, by omega, by omega, by omega⟩
     rw [← hr]
     simp [List.append_assoc])

theorem sign_error_class {H : DigestFn} {wire : Bytes} {keyname : Name} {secret : Bytes}
    {time fudge original_id error : Nat} {other_data request_mac : Bytes}
    {ctx : Option HCtx} {multi first : Bool} {algorithm : AlgId} {e : TsigError}
    (h : sign H wire keyname secret time fudge original_id error other_data request_mac
      ctx multi first algorithm = .error e) :
    e = .unsupportedAlgorithm ∨ e = .structError ∨ e = .contextError ∨
      (e = .constraintViolation ∧ other_data.length > 65535) := by
  unfold sign at h
  cases hga : get_algorithm algorithm with
  | error e2 =>
    rw [hga] at h
    dsimp only at h
    simp only [Except.error.injEq] at h
    subst h
    exact .inl (get_algorithm_err hga)
  | ok p =>
    obtain ⟨an, dm⟩ := p
    rw [hga] at h
    dsimp only at h
    cases first
    · simp only [Bool.false_eq_true, if_false] at h
      cases ctx with
      | none =>
        dsimp only at h
        repeat' split at h
        all_goals
          simp only [Except.error.injEq] at h
          subst h
          simp_all
      | some c0 =>
        dsimp only at h
        repeat' split at h
        all_goals first
        | exact Except.noConfusion h
        | (simp only [Except.error.injEq] at h
           subst h
           simp_all)
    · simp only [reduceIte] at h
      by_cases hrm : request_mac.length > 0
      · by_cases hrm2 : request_mac.length < 65536
        · rw [if_pos hrm, if_pos hrm2] at h
          dsimp only at h
          repeat' split at h
          all_goals first
          | exact Except.noConfusion h
          | (simp only [Except.error.injEq] at h
             subst h
             simp_all)
        · rw [if_pos hrm, if_neg hrm2] at h
          simp only [Except.error.injEq] at h
          subst h
          simp
      · rw [if_neg hrm] at h
        dsimp only at h
        repeat' split at h
        all_goals first
        | exact Except.noConfusion h
        | (simp only [Except.error.injEq] at h
           subst h
           simp_all)

theorem sign_ne_badTime (H : DigestFn) (wire : Bytes) (keyname : Name) (secret : Bytes)
    (time fudge original_id error : Nat) (other_data request_mac : Bytes)
    (ctx : Option HCtx) (multi first : Bool) (algorithm : AlgId) :
    sign H wire keyname secret time fudge original_id error other_data request_mac
      ctx multi first algorithm ≠ .error .badTime := by
  intro h
  rcases sign_error_class h with h1 | h1 | h1 | ⟨h1, _⟩ <;> simp at h1

theorem sign_ne_badSignature (H : DigestFn) (wire : Bytes) (keyname : Name) (secret : Bytes)
    (time fudge original_id error : Nat) (other_data request_mac : Bytes)
    (ctx : Option HCtx) (multi first : Bool) (algorithm : AlgId) :
    sign H wire keyname secret time fudge original_id error other_data request_mac
      ctx multi first algorithm ≠ .error .badSignature := by
  intro h
  rcases sign_error_class h with h1 | h1 | h1 | ⟨h1, _⟩ <;> simp at h1

theorem sign_constraint_of {H : DigestFn} {wire : Bytes} {keyname : Name} {secret : Bytes}
    {time fudge original_id error : Nat} {other_data request_mac : Bytes}
    {ctx : Option HCtx} {multi first : Bool} {algorithm : AlgId}
    (h : sign H wire keyname secret time fudge original_id error other_data request_mac
      ctx multi first algorithm = .error .constraintViolation) :
    other_data.length > 65535 := by
  rcases sign_error_class h with h1 | h1 | h1 | ⟨h1, h2⟩ <;> first | exact h2 | simp at h1

theorem sign_long_other_not_ok {H : DigestFn} {wire : Bytes} {keyname : Name} {secret : Bytes}
    {time fudge original_id error : Nat} {other_data request_mac : Bytes}
    {ctx : Option HCtx} {multi first : Bool} {algorithm : AlgId}
    (hol : other_data.length > 65535)
    (x : Bytes × Bytes × Option HCtx) :
    sign H wire keyname secret time fudge original_id error other_data request_mac
      ctx multi first algorithm ≠ .ok x := by
  intro h
  unfold sign at h
  repeat' split at h
  all_goals first
  | exact Except.noConfusion h
  | omega
  | (cases ctx with
     | none => exact Except.noConfusion h
     | some c0 => exact Except.noConfusion h)

theorem sign_ok_get_algorithm {H : DigestFn} {wire : Bytes} {keyname : Name} {secret : Bytes}
    {time fudge original_id error : Nat} {other_data request_mac : Bytes}
    {ctx : Option HCtx} {multi first : Bool} {algorithm : AlgId}
    {x : Bytes × Bytes × Option HCtx}
    (h : sign H wire keyname secret time fudge original_id error other_data request_mac
      ctx multi first algorithm = .ok x) :
    ∃ an dm, get_algorithm algorithm = .ok (an, dm) := by
  unfold sign at h
  cases hga : get_algorithm algorithm with
  | error e =>
    rw [hga] at h
    dsimp only at h
    exact Except.noConfusion h
  | ok p =>
    obtain ⟨a, b⟩ := p
    exact ⟨a, b, rfl⟩

theorem validate_unfold_ok {H : DigestFn} {wire : Bytes} {keyname : Name} {secret : Bytes}
    {now : Nat} {request_mac : Bytes} {tsig_start tsig_rdata tsig_rdlen : Nat}
    {ctx : Option HCtx} {multi first : Bool} {f : TsigFields}
    (h12 : 12 ≤ wire.length) (hadc : unpack16at wire 10 ≠ 0)
    (hp : parse_tsig wire tsig_rdata = .ok f)
    (hend : f.endPos = tsig_rdata + tsig_rdlen) :
    validate H wire keyname secret now request_mac tsig_start tsig_rdata tsig_rdlen
      ctx multi first =
      if f.error ≠ 0 then .error (peer_error_of f.error)
      else if (now : Int) < (f.time : Int) - (f.fudge : Int) ∨
          (f.time : Int) + (f.fudge : Int) < (now : Int) then .error .badTime
      else
        match sign H (wire.take 10 ++ pack16 (unpack16at wire 10 - 1) ++
            (wire.drop 12).take (tsig_start - 12)) keyname secret f.time f.fudge
            f.original_id f.error f.other_data request_mac ctx multi first
            (.name f.aname) with
        | .error e => .error e
        | .ok (_, our_mac, ctx2) =>
          if our_mac ≠ f.mac then .error .badSignature else .ok ctx2 := by
  unfold validate
  rw [if_neg (by omega)]
  dsimp only
  rw [if_neg hadc, hp]
  dsimp only
  rw [if_neg (by simp [hend])]

/-! Lemmas about `validate` and the rdata layout. -/

theorem drop_index {w t : Bytes} {i j k : Nat} (h : w.drop i = t) (hk : k = i + j) :
    w.drop k = t.drop j := by
  rw [hk, drop_add, h]

theorem validate_short_wire {H : DigestFn} {wire : Bytes} {keyname : Name} {secret : Bytes}
    {now : Nat} {request_mac : Bytes} {tsig_start tsig_rdata tsig_rdlen : Nat}
    {ctx : Option HCtx} {multi first : Bool}
    (h12 : wire.length < 12) :
    validate H wire keyname secret now request_mac tsig_start tsig_rdata tsig_rdlen
      ctx multi first = .error .structError := by
  unfold validate
  rw [if_pos h12]

theorem validate_adcount_zero {H : DigestFn} {wire : Bytes} {keyname : Name} {secret : Bytes}
    {now : Nat} {request_mac : Bytes} {tsig_start tsig_rdata tsig_rdlen : Nat}
    {ctx : Option HCtx} {multi first : Bool}
    (h12 : 12 ≤ wire.length) (hadc : unpack16at wire 10 = 0) :
    validate H wire keyname secret now request_mac tsig_start tsig_rdata tsig_rdlen
      ctx multi first = .error .formatError := by
  unfold validate
  rw [if_neg (by omega)]
  dsimp only
  rw [if_pos hadc]

theorem validate_endpos_ne {H : DigestFn} {wire : Bytes} {keyname : Name} {secret : Bytes}
    {now : Nat} {request_mac : Bytes} {tsig_start tsig_rdata tsig_rdlen : Nat}
    {ctx : Option HCtx} {multi first : Bool} {f : TsigFields}
    (h12 : 12 ≤ wire.length) (hadc : unpack16at wire 10 ≠ 0)
    (hp : parse_tsig wire tsig_rdata = .ok f)
    (hend : f.endPos ≠ tsig_rdata + tsig_rdlen) :
    validate H wire keyname secret now request_mac tsig_start tsig_rdata tsig_rdlen
      ctx multi first = .error .formatError := by
  unfold validate
  rw [if_neg (by omega)]
  dsimp only
  rw [if_neg hadc, hp]
  dsimp only
  rw [if_pos hend]

theorem parse_tsig_layout {A an : Bytes} {q : Name} {ut lt fu oid er : Nat}
    {mc od : Bytes} {off : Nat} (w : Bytes)
    (hw : w = A ++ (an ++ (pack16 ut ++ (pack32 lt ++ (pack16 fu ++ (pack16 mc.length ++
      (mc ++ (pack16 oid ++ (pack16 er ++ (pack16 od.length ++ od))))))))))
    (hA : A.length = off) (han : an = toDigestable q) (hwf : wfName q)
    (hut : ut < 65536) (hlt : lt < 4294967296) (hfu : fu < 65536)
    (hm16 : mc.length < 65536) (hoid : oid < 65536) (her : er < 65536)
    (ho16 : od.length < 65536) :
    parse_tsig w off =
      .ok ⟨q.map canonLabel, ut * 2 ^ 32 + lt, fu, mc, oid, er, od,
        off + (an.length + 16 + mc.length + od.length)⟩ := by
  have hwlen : w.length = off + an.length + 16 + mc.length + od.length := by
    rw [hw]
    simp only [List.length_append, pack16_length, pack32_length, hA]
    omega
  have h0 : w.drop off = an ++ (pack16 ut ++ (pack32 lt ++ (pack16 fu ++ (pack16 mc.length ++
      (mc ++ (pack16 oid ++ (pack16 er ++ (pack16 od.length ++ od)))))))) := by
    rw [hw]
    exact List.drop_left' hA
  have hfw : from_wire w off = some (q.map canonLabel, an.length) := by
    rw [from_wire_parse hwf (by rw [h0, han]), ← han]
  have h1 : w.drop (off + an.length) = pack16 ut ++ (pack32 lt ++ (pack16 fu ++
      (pack16 mc.length ++ (mc ++ (pack16 oid ++ (pack16 er ++
      (pack16 od.length ++ od))))))) := by
    rw [drop_index h0 rfl]
    exact List.drop_left' rfl
  have h2 : w.drop (off + an.length + 2) = pack32 lt ++ (pack16 fu ++
      (pack16 mc.length ++ (mc ++ (pack16 oid ++ (pack16 er ++
      (pack16 od.length ++ od)))))) := by
    rw [drop_index h1 rfl]
    exact List.drop_left' (pack16_length ut)
  have h3 : w.drop (off + an.length + 6) = pack16 fu ++
      (pack16 mc.length ++ (mc ++ (pack16 oid ++ (pack16 er ++
      (pack16 od.length ++ od))))) := by
    rw [drop_index h2 (by omega : off + an.length + 6 = off + an.length + 2 + 4)]
    exact List.drop_left' (pack32_length lt)
  have h4 : w.drop (off + an.length + 8) = pack16 mc.length ++
      (mc ++ (pack16 oid ++ (pack16 er ++ (pack16 od.length ++ od)))) := by
    rw [drop_index h3 (by omega : off + an.length + 8 = off + an.length + 6 + 2)]
    exact List.drop_left' (pack16_length fu)
  have h5 : w.drop (off + an.length + 10) =
      mc ++ (pack16 oid ++ (pack16 er ++ (pack16 od.length ++ od))) := by
    rw [drop_index h4 (by omega : off + an.length + 10 = off + an.length + 8 + 2)]
    exact List.drop_left' (pack16_length mc.length)
  have h6 : w.drop (off + an.length + 10 + mc.length) =
      pack16 oid ++ (pack16 er ++ (pack16 od.length ++ od)) := by
    rw [drop_index h5 rfl]
    exact List.drop_left' rfl
  have h7 : w.drop (off + an.length + 10 + mc.length + 2) =
      pack16 er ++ (pack16 od.length ++ od) := by
    rw [drop_index h6 rfl]
    exact List.drop_left' (pack16_length oid)
  have h8 : w.drop (off + an.length + 10 + mc.length + 4) =
      pack16 od.length ++ od := by
    rw [drop_index h7 (by omega : off + an.length + 10 + mc.length + 4 =
      off + an.length + 10 + mc.length + 2 + 2)]
    exact List.drop_left' (pack16_length er)
  have h9 : w.drop (off + an.length + 10 + mc.length + 6) = od := by
    rw [drop_index h8 (by omega : off + an.length + 10 + mc.length + 6 =
      off + an.length + 10 + mc.length + 4 + 2)]
    exact List.drop_left' (pack16_length od.length)
  unfold parse_tsig
  rw [hfw]
  dsimp only
  rw [unpack16at_pack16 h1 hut, unpack32at_pack32 h2 hlt, unpack16at_pack16 h3 hfu,
    unpack16at_pack16 h4 hm16]
  rw [if_neg (by omega)]
  rw [h5, List.take_left]
  rw [unpack16at_pack16 h6 hoid, unpack16at_pack16 h7 her, unpack16at_pack16 h8 ho16]
  rw [if_neg (by omega)]
  rw [h9, List.take_length]
  simp only [Except.ok.injEq, TsigFields.mk.injEq]
  exact ⟨trivial, trivial, trivial, trivial, trivial, trivial, trivial, by omega⟩

theorem exists_two_drop {m : Bytes} (hm : 12 ≤ m.length) :
    ∃ b0 b1 t, m.drop 10 = b0 :: b1 :: t := by
  have hlen : (m.drop 10).length = m.length - 10 := List.length_drop 10 m
  rcases hd : m.drop 10 with _ | ⟨b0, _ | ⟨b1, t⟩⟩
  · rw [hd] at hlen
    simp at hlen
    omega
  · rw [hd] at hlen
    simp at hlen
    omega
  · exact ⟨b0, b1, t, rfl⟩

theorem header_reassemble {m : Bytes} (hm : 12 ≤ m.length) (hb : ∀ b ∈ m, b < 256) :
    m.take 10 ++ pack16 (unpack16at m 10) ++ m.drop 12 = m := by
  obtain ⟨b0, b1, t, h10⟩ := exists_two_drop hm
  have hb0 : b0 < 256 := hb b0 (List.mem_of_mem_drop (h10 ▸ List.mem_cons_self b0 (b1 :: t)))
  have hb1 : b1 < 256 :=
    hb b1 (List.mem_of_mem_drop (h10 ▸ List.mem_cons_of_mem b0 (List.mem_cons_self b1 t)))
  have hu : unpack16at m 10 = 256 * b0 + b1 := unpack16at_cons h10
  have h12 : m.drop 12 = t := by
    rw [(by omega : (12 : Nat) = 10 + 2), drop_add, h10]
    rfl
  have hcons : pack16 (unpack16at m 10) ++ m.drop 12 = m.drop 10 := by
    rw [hu, pack16_eq_of_bytes hb0 hb1, h12, h10]
    rfl
  rw [List.append_assoc, hcons, List.take_append_drop]

theorem normalize_name (n : Name) : normalize (.name n) = n := rfl

/-! Concrete scenario: HMAC-SHA256, key name test-key, a 16-byte secret,
time 1000000000, fudge 300, original id 1234, empty error/other-data. -/

/-- C1: signing a message and validating the message with the TSIG attached
(answer/additional count incremented, the sign-produced rdata appended at the
rdata offset), with the same key, secret, prior request MAC, context and
session flags, and any `now` in the window `[time - fudge, time + fudge]`,
succeeds and returns the continuation context `sign` produced; moreover the
MAC `validate` parses out of the wire (the one it compares against) equals
the MAC `sign` produced. -/
theorem C1_sign_validate_roundtrip {H : DigestFn} {m : Bytes} {keyname : Name}
    {secret : Bytes} {time fudge original_id : Nat} {other_data request_mac : Bytes}
    {ctx : Option HCtx} {multi first : Bool} {algorithm : AlgId} {now : Nat}
    {rdata mac : Bytes} {ctx2 : Option HCtx} {wire2 : Bytes}
    (hm : 12 ≤ m.length) (hb : ∀ b ∈ m, b < 256)
    (hcount : unpack16at m 10 < 65535)
    (ht : time < 2 ^ 48)
    (hnow1 : (time : Int) - (fudge : Int) ≤ (now : Int))
    (hnow2 : (now : Int) ≤ (time : Int) + (fudge : Int))
    (hsign : sign H m keyname secret time fudge original_id 0 other_data request_mac
      ctx multi first algorithm = .ok (rdata, mac, ctx2))
    (hwire : wire2 = m.take 10 ++ pack16 (unpack16at m 10 + 1) ++ m.drop 12 ++ rdata) :
    validate H wire2 keyname secret now request_mac m.length m.length rdata.length
        ctx multi first = .ok ctx2 ∧
      ∃ f, parse_tsig wire2 m.length = .ok f ∧ f.mac = mac := by
  obtain ⟨an, dm, halg⟩ := sign_ok_get_algorithm hsign
  obtain ⟨hr, hml, hid, hfu, herr0, hol⟩ := sign_shape halg hsign
  obtain ⟨han, hlk⟩ := get_algorithm_ok halg
  have hwf : wfName (normalize algorithm) := wf_of_lookup hlk
  have htklen : (m.take 10).length = 10 := by
    simp [List.length_take]
    omega
  have hA : (m.take 10 ++ pack16 (unpack16at m 10 + 1) ++ m.drop 12).length = m.length := by
    simp only [List.length_append, pack16_length, List.length_drop, htklen]
    omega
  have hw : wire2 = (m.take 10 ++ pack16 (unpack16at m 10 + 1) ++ m.drop 12) ++
      (an ++ (pack16 (time / 2 ^ 32 % 2 ^ 16) ++ (pack32 (time % 2 ^ 32) ++ (pack16 fudge ++
      (pack16 mac.length ++ (mac ++ (pack16 original_id ++ (pack16 0 ++
      (pack16 other_data.length ++ other_data))))))))) := by
    simp only [hwire, hr, List.append_assoc]
  have hp : parse_tsig wire2 m.length =
      .ok ⟨(normalize algorithm).map canonLabel,
        time / 2 ^ 32 % 2 ^ 16 * 2 ^ 32 + time % 2 ^ 32, fudge, mac, original_id, 0,
        other_data, m.length + (an.length + 16 + mac.length + other_data.length)⟩ :=
    parse_tsig_layout wire2 hw hA han hwf (by omega) (by omega) hfu hml hid
      (by omega) (by omega)
  have htime : time / 2 ^ 32 % 2 ^ 16 * 2 ^ 32 + time % 2 ^ 32 = time := by omega
  rw [htime] at hp
  have hrlen : rdata.length = an.length + 16 + mac.length + other_data.length := by
    rw [hr]
    simp only [List.length_append, pack16_length, pack32_length]
    omega
  have h12w : 12 ≤ wire2.length := by
    rw [hw]
    simp only [List.length_append, hA]
    omega
  have hdrop10 : wire2.drop 10 = pack16 (unpack16at m 10 + 1) ++ (m.drop 12 ++ rdata) := by
    rw [hwire, List.append_assoc, List.append_assoc]
    exact List.drop_left' htklen
  have hadc : unpack16at wire2 10 = unpack16at m 10 + 1 :=
    unpack16at_pack16 hdrop10 (by omega)
  have hnew : wire2.take 10 ++ pack16 (unpack16at wire2 10 - 1) ++
      (wire2.drop 12).take (m.length - 12) = m := by
    have ht10 : wire2.take 10 = m.take 10 := by
      rw [hwire, List.append_assoc, List.append_assoc]
      exact List.take_left' htklen
    have hd12 : wire2.drop 12 = m.drop 12 ++ rdata := by
      rw [show (12 : Nat) = 10 + 2 from rfl, drop_add, hdrop10]
      exact List.drop_left' (pack16_length (unpack16at m 10 + 1))
    have htk : (m.drop 12 ++ rdata).take (m.length - 12) = m.drop 12 :=
      List.take_left' (by simp)
    rw [ht10, hd12, htk, hadc, Nat.add_sub_cancel]
    exact header_reassemble hm hb
  have hga2 : get_algorithm (.name ((normalize algorithm).map canonLabel)) =
      get_algorithm algorithm := by
    rw [get_algorithm_name_canon, halg]
    unfold get_algorithm
    rw [normalize_name, hlk]
    dsimp only
    rw [han]
  refine ⟨?_, ⟨_, hp, rfl⟩⟩
  rw [validate_unfold_ok h12w (by omega) hp (by dsimp only; omega)]
  dsimp only
  rw [if_neg (by simp)]
  rw [if_neg (by omega)]
  rw [hnew, sign_algid_congr H m keyname secret time fudge original_id 0 other_data
    request_mac ctx multi first hga2, hsign]
  dsimp only
  rw [if_neg (by simp)]

/-- Digest lengths of the six primitives, used by the concrete provider. -/
def digest_len : DigestMod → Nat
  | .md5 => 16
  | .sha1 => 20
  | .sha224 => 28
  | .sha256 => 32
  | .sha384 => 48
  | .sha512 => 64

/-- A concrete executable digest provider for witnesses: a toy keyed checksum
with the real output lengths. -/
def H0 : DigestFn := fun dm key data =>
  List.replicate (digest_len dm)
    ((key.foldl (fun a b => a + b) 0 + data.foldl (fun a b => a + 2 * b) 0) % 256)

/-- A minimal 12-byte DNS message: id 1234, all counts zero. -/
def m0 : Bytes := [4, 210, 0, 0, 0, 0, 0, 0, 0, 0, 0, 0]

/-- The key name "test-key". -/
def key0 : Name := [[116, 101, 115, 116, 45, 107, 101, 121]]

def secret0 : Bytes := [1, 2, 3, 4, 5, 6, 7, 8, 9, 10, 11, 12, 13, 14, 15, 16]

/-- The rdata produced by signing `m0` in the concrete scenario. -/
def rdata0 : Bytes :=
  match sign H0 m0 key0 secret0 1000000000 300 1234 0 [] [] none false true
      (.name HMAC_SHA256) with
  | .ok (r, _, _) => r
  | .error _ => []

/-- The MAC produced by signing `m0` in the concrete scenario. -/
def mac0 : Bytes :=
  match sign H0 m0 key0 secret0 1000000000 300 1234 0 [] [] none false true
      (.name HMAC_SHA256) with
  | .ok (_, mc, _) => mc
  | .error _ => []

/-- The signed message: count field incremented, rdata appended. -/
def wire0 : Bytes := m0.take 10 ++ pack16 (unpack16at m0 10 + 1) ++ m0.drop 12 ++ rdata0

/-- Witness for C1: the concrete HMAC-SHA256 scenario round-trips, and the
parsed MAC equals the signed MAC. -/
theorem C1_sign_validate_roundtrip_witness :
    validate H0 wire0 key0 secret0 1000000100 [] m0.length m0.length rdata0.length
        none false true = .ok none ∧
      ∃ f, parse_tsig wire0 m0.length = .ok f ∧ f.mac = mac0 :=
  @C1_sign_validate_roundtrip H0 m0 key0 secret0 1000000000 300 1234 [] [] none
    false true (.name HMAC_SHA256) 1000000100 rdata0 mac0 none wire0
    (by decide) (by decide) (by decide) (by decide) (by decide) (by decide)
    (by decide) (by decide)

theorem sign_first_mac {H : DigestFn} {wire : Bytes} {keyname : Name} {secret : Bytes}
    {time fudge original_id error : Nat} {other_data request_mac : Bytes}
    {ctx : Option HCtx} {multi : Bool} {algorithm : AlgId}
    {an : Bytes} {dm : DigestMod} {r mc : Bytes} {c' : Option HCtx}
    (halg : get_algorithm algorithm = .ok (an, dm))
    (h : sign H wire keyname secret time fudge original_id error other_data request_mac
      ctx multi true algorithm = .ok (r, mc, c')) :
    mc = H dm secret
      ((if request_mac.length > 0 then pack16 request_mac.length ++ request_mac else []) ++
        (pack16 original_id ++ (wire.drop 2 ++ (toDigestable keyname ++
        (pack16 classANY ++ (pack32 0 ++ (an ++ (pack16 (time / 2 ^ 32 % 2 ^ 16) ++
        (pack32 (time % 2 ^ 32) ++ (pack16 fudge ++ (pack16 error ++
        (pack16 other_data.length ++ other_data)))))))))))) := by
  unfold sign at h
  rw [halg] at h
  dsimp only at h
  simp only [reduceIte] at h
  by_cases hrm : request_mac.length > 0
  · rw [if_pos hrm] at h
    by_cases hrm2 : request_mac.length < 65536
    · rw [if_pos hrm2] at h
      dsimp only at h
      repeat' split at h
      all_goals first
      | exact Except.noConfusion h
      | (simp only [Except.ok.injEq, Prod.mk.injEq] at h
         obtain ⟨hr, hmc, hc⟩ := h
         rw [← hmc]
         simp [HCtx.update, HCtx.digest, List.append_assoc, if_pos hrm])
    · rw [if_neg hrm2] at h
      exact Except.noConfusion h
  · rw [if_neg hrm] at h
    dsimp only at h
    repeat' split at h
    all_goals first
    | exact Except.noConfusion h
    | (simp only [Except.ok.injEq, Prod.mk.injEq] at h
       obtain ⟨hr, hmc, hc⟩ := h
       rw [← hmc]
       simp [HCtx.update, HCtx.digest, List.append_assoc, if_neg hrm])

theorem sign_cont_mac {H : DigestFn} {wire : Bytes} {keyname : Name} {secret : Bytes}
    {time fudge original_id error : Nat} {other_data request_mac : Bytes}
    {c0 : HCtx} {multi : Bool} {algorithm : AlgId}
    {an : Bytes} {dm : DigestMod} {r mc : Bytes} {c' : Option HCtx}
    (halg : get_algorithm algorithm = .ok (an, dm))
    (h : sign H wire keyname secret time fudge original_id error other_data request_mac
      (some c0) multi false algorithm = .ok (r, mc, c')) :
    mc = H c0.dm c0.secret
      (c0.data ++ (pack16 original_id ++ (wire.drop 2 ++
        (pack16 (time / 2 ^ 32 % 2 ^ 16) ++ (pack32 (time % 2 ^ 32) ++
        pack16 fudge))))) := by
  unfold sign at h
  rw [halg] at h
  dsimp only at h
  simp only [Bool.false_eq_true, if_false] at h
  try dsimp only at h
  repeat' split at h
  all_goals first
  | exact Except.noConfusion h
  | (simp only [Except.ok.injEq, Prod.mk.injEq] at h
     obtain ⟨hr, hmc, hc⟩ := h
     rw [← hmc]
     simp [HCtx.update, HCtx.digest, List.append_assoc])

/-- C2: every successful call of `sign` returns rdata laid out as the
algorithm wire-name, the 48-bit time split high-16/low-32 big-endian, the
16-bit fudge, a 2-byte MAC length, the MAC, the 2-byte original id, the
16-bit error, the 16-bit other-data length and the other data; in
particular, for HMAC-SHA256 (with the digest context opened under SHA-256)
and empty other data the MAC is exactly 32 bytes and the rdata length equals
the wire-name length plus 48. -/
theorem C2_rdata_layout {H : DigestFn} {wire : Bytes} {keyname : Name} {secret : Bytes}
    {time fudge original_id error : Nat} {other_data request_mac : Bytes}
    {ctx : Option HCtx} {multi first : Bool} {algorithm : AlgId}
    {an : Bytes} {dm : DigestMod} {r mc : Bytes} {c' : Option HCtx}
    (halg : get_algorithm algorithm = .ok (an, dm))
    (hsign : sign H wire keyname secret time fudge original_id error other_data request_mac
      ctx multi first algorithm = .ok (r, mc, c')) :
    r = an ++ pack16 (time / 2 ^ 32 % 2 ^ 16) ++ pack32 (time % 2 ^ 32) ++ pack16 fudge ++
        pack16 mc.length ++ mc ++ pack16 original_id ++ pack16 error ++
        pack16 other_data.length ++ other_data ∧
      (algorithm = .name HMAC_SHA256 → other_data = [] →
        (∀ k d, (H .sha256 k d).length = 32) →
        (first = true ∨ ∃ c0, ctx = some c0 ∧ c0.dm = .sha256) →
        mc.length = 32 ∧ r.length = (toDigestable HMAC_SHA256).length + 48) := by
  obtain ⟨hr, hml, hid, hfu, herr, hol⟩ := sign_shape halg hsign
  constructor
  · rw [hr]
    simp [List.append_assoc]
  · intro ha hod hH hctx
    subst ha
    subst hod
    have hga : get_algorithm (.name HMAC_SHA256) =
        .ok (toDigestable HMAC_SHA256, .sha256) := by decide
    have hcomp := (halg.symm.trans hga)
    simp only [Except.ok.injEq, Prod.mk.injEq] at hcomp
    obtain ⟨han2, hdm2⟩ := hcomp
    have hmlen : mc.length = 32 := by
      cases first
      · rcases hctx with hf | ⟨c0, hc, hcdm⟩
        · exact absurd hf (by simp)
        · subst hc
          rw [sign_cont_mac halg hsign, hcdm]
          exact hH _ _
      · rw [sign_first_mac halg hsign, hdm2]
        exact hH _ _
    refine ⟨hmlen, ?_⟩
    rw [hr]
    simp only [List.length_append, pack16_length, pack32_length, han2, hmlen]
    simp
    try omega

/-- Witness for C2 at the concrete HMAC-SHA256 scenario. -/
theorem C2_rdata_layout_witness :
    mac0.length = 32 ∧ rdata0.length = (toDigestable HMAC_SHA256).length + 48 :=
  (@C2_rdata_layout H0 m0 key0 secret0 1000000000 300 1234 0 [] [] none false true
      (.name HMAC_SHA256) (toDigestable HMAC_SHA256) DigestMod.sha256 rdata0 mac0 none
      (by decide) (by decide)).2 rfl rfl
    (fun k d => by simp [H0, digest_len]) (.inl rfl)

/-- C3: on a first message the digest is fed, in order, any non-empty request
MAC length-prefixed, the 2-byte original id, the message from offset 2, the
key name in wire form, class ANY, a zero TTL, then `pre_mac` (algorithm
wire-name, time, fudge) and `post_mac` (error, other-data length, other
data); on a continuation message only the 2-byte original id, the message
from offset 2 and the 8 bytes of time and fudge are fed — algorithm name,
key name, class, TTL, error and other data are not hashed. -/
theorem C3_first_vs_continuation {H : DigestFn} {wire : Bytes} {keyname : Name}
    {secret : Bytes} {time fudge original_id error : Nat}
    {other_data request_mac : Bytes} {algorithm : AlgId} {an : Bytes} {dm : DigestMod}
    (halg : get_algorithm algorithm = .ok (an, dm)) :
    (∀ ctx multi r mc c',
      sign H wire keyname secret time fudge original_id error other_data request_mac
          ctx multi true algorithm = .ok (r, mc, c') →
        mc = H dm secret
          ((if request_mac.length > 0 then pack16 request_mac.length ++ request_mac
            else []) ++
            (pack16 original_id ++ (wire.drop 2 ++ (toDigestable keyname ++
            (pack16 classANY ++ (pack32 0 ++ (an ++ (pack16 (time / 2 ^ 32 % 2 ^ 16) ++
            (pack32 (time % 2 ^ 32) ++ (pack16 fudge ++ (pack16 error ++
            (pack16 other_data.length ++ other_data))))))))))))) ∧
    (∀ c0 multi r mc c',
      sign H wire keyname secret time fudge original_id error other_data request_mac
          (some c0) multi false algorithm = .ok (r, mc, c') →
        mc = H c0.dm c0.secret
          (c0.data ++ (pack16 original_id ++ (wire.drop 2 ++
            (pack16 (time / 2 ^ 32 % 2 ^ 16) ++ (pack32 (time % 2 ^ 32) ++
            pack16 fudge)))))) :=
  ⟨fun _ _ _ _ _ h => sign_first_mac halg h,
   fun _ _ _ _ _ h => sign_cont_mac halg h⟩

/-- Witness for C3: the concrete first-message MAC is the toy digest of
exactly the bytes the claim lists. -/
theorem C3_first_vs_continuation_witness :
    mac0 = H0 .sha256 secret0
      (pack16 1234 ++ (m0.drop 2 ++ (toDigestable key0 ++ (pack16 classANY ++
        (pack32 0 ++ (toDigestable HMAC_SHA256 ++ (pack16 (1000000000 / 2 ^ 32 % 2 ^ 16) ++
        (pack32 (1000000000 % 2 ^ 32) ++ (pack16 300 ++ (pack16 0 ++
        (pack16 0 ++ ([] : Bytes)))))))))))) :=
  (@C3_first_vs_continuation H0 m0 key0 secret0 1000000000 300 1234 0 [] [] 
      (.name HMAC_SHA256) (toDigestable HMAC_SHA256) DigestMod.sha256
      (by decide)).1 none false rdata0 mac0 none (by decide)

theorem sign_unsupported {H : DigestFn} {wire : Bytes} {keyname : Name} {secret : Bytes}
    {time fudge original_id error : Nat} {other_data request_mac : Bytes}
    {ctx : Option HCtx} {multi first : Bool} {algorithm : AlgId} {e : TsigError}
    (hga : get_algorithm algorithm = .error e) :
    sign H wire keyname secret time fudge original_id error other_data request_mac
      ctx multi first algorithm = .error e := by
  unfold sign
  rw [hga]

theorem sign_constraint_forward {H : DigestFn} {wire : Bytes} {keyname : Name}
    {secret : Bytes} {time fudge original_id error : Nat}
    {other_data request_mac : Bytes} {ctx : Option HCtx} {multi first : Bool}
    {algorithm : AlgId} {an : Bytes} {dm : DigestMod}
    (halg : get_algorithm algorithm = .ok (an, dm)) (hid : original_id < 65536)
    (hfu : fudge < 65536) (hrm : request_mac.length < 65536)
    (hctx : first = true ∨ ∃ c0, ctx = some c0)
    (hol : other_data.length > 65535) :
    sign H wire keyname secret time fudge original_id error other_data request_mac
      ctx multi first algorithm = .error .constraintViolation := by
  unfold sign
  rw [halg]
  dsimp only
  cases first
  · rcases hctx with hf | ⟨c0, hc⟩
    · exact absurd hf (by simp)
    · subst hc
      simp only [Bool.false_eq_true, if_false]
      try dsimp only
      rw [if_pos hid]
      try dsimp only
      rw [if_pos hfu, if_pos hol]
  · simp only [reduceIte]
    by_cases hrm0 : request_mac.length > 0
    · rw [if_pos hrm0, if_pos hrm]
      try dsimp only
      rw [if_pos hid]
      try dsimp only
      rw [if_pos hfu, if_pos hol]
    · rw [if_neg hrm0]
      try dsimp only
      rw [if_pos hid]
      try dsimp only
      rw [if_pos hfu, if_pos hol]

/-- Counterexample to C4 as stated: with over-long other data, a call with an
unregistered algorithm fails with UnsupportedAlgorithm, a continuation call
without a context fails with the context error, and an out-of-range original
id fails with the struct range error — none with ConstraintViolation. -/
theorem C4_counterexample :
    ((List.replicate 65536 (0 : Nat)).length > 65535 ∧
      sign H0 m0 key0 secret0 0 0 0 0 (List.replicate 65536 0) [] none false true
        (.text [120]) = .error .unsupportedAlgorithm) ∧
    sign H0 m0 key0 secret0 0 0 0 0 (List.replicate 65536 0) [] none false false
      (.name HMAC_SHA256) = .error .contextError ∧
    sign H0 m0 key0 secret0 0 0 70000 0 (List.replicate 65536 0) [] none false true
      (.name HMAC_SHA256) = .error .structError := by
  refine ⟨⟨by rw [List.length_replicate]; omega, sign_unsupported (by decide)⟩, by decide, by decide⟩

/-- C4 (amended): for calls with a supported algorithm, in-range id, fudge and
request-MAC length, and a digest context available (a first message, or a
supplied context), other data longer than 65535 bytes fails `sign` with
ConstraintViolation; in every call over-long other data never yields a
result, and other data within 65535 bytes never raises ConstraintViolation. -/
theorem C4_other_data_limit :
    (∀ (H : DigestFn) (wire : Bytes) (keyname : Name) (secret : Bytes)
        (time fudge original_id error : Nat) (other_data request_mac : Bytes)
        (ctx : Option HCtx) (multi first : Bool) (algorithm : AlgId)
        (an : Bytes) (dm : DigestMod),
      get_algorithm algorithm = .ok (an, dm) → original_id < 65536 → fudge < 65536 →
      request_mac.length < 65536 → (first = true ∨ ∃ c0, ctx = some c0) →
      other_data.length > 65535 →
      sign H wire keyname secret time fudge original_id error other_data request_mac
        ctx multi first algorithm = .error .constraintViolation) ∧
    (∀ (H : DigestFn) (wire : Bytes) (keyname : Name) (secret : Bytes)
        (time fudge original_id error : Nat) (other_data request_mac : Bytes)
        (ctx : Option HCtx) (multi first : Bool) (algorithm : AlgId)
        (x : Bytes × Bytes × Option HCtx),
      other_data.length > 65535 →
      sign H wire keyname secret time fudge original_id error other_data request_mac
        ctx multi first algorithm ≠ .ok x) ∧
    (∀ (H : DigestFn) (wire : Bytes) (keyname : Name) (secret : Bytes)
        (time fudge original_id error : Nat) (other_data request_mac : Bytes)
        (ctx : Option HCtx) (multi first : Bool) (algorithm : AlgId),
      other_data.length ≤ 65535 →
      sign H wire keyname secret time fudge original_id error other_data request_mac
        ctx multi first algorithm ≠ .error .constraintViolation) := by
  refine ⟨?_, ?_, ?_⟩
  · intro H wire keyname secret time fudge original_id error other_data request_mac
      ctx multi first algorithm an dm halg hid hfu hrm hctx hol
    exact sign_constraint_forward halg hid hfu hrm hctx hol
  · intro H wire keyname secret time fudge original_id error other_data request_mac
      ctx multi first algorithm x hol
    exact sign_long_other_not_ok hol x
  · intro H wire keyname secret time fudge original_id error other_data request_mac
      ctx multi first algorithm hol h
    exact absurd (sign_constraint_of h) (by omega)

/-- Witness for C4 (amended): a concrete over-long other-data call fails with
ConstraintViolation. -/
theorem C4_other_data_limit_witness :
    sign H0 m0 key0 secret0 1000000000 300 1234 0 (List.replicate 65536 0) [] none
      false true (.name HMAC_SHA256) = .error .constraintViolation :=
  C4_other_data_limit.1 H0 m0 key0 secret0 1000000000 300 1234 0
    (List.replicate 65536 0) [] none false true (.name HMAC_SHA256)
    (toDigestable HMAC_SHA256) DigestMod.sha256 (by decide) (by decide) (by decide)
    (by decide) (.inl rfl) (by rw [List.length_replicate]; omega)

/-- C5: if the 2-byte count field at bytes [10,12) of the message is zero,
`validate` fails with FormatError; if the rdata fields consume a number of
bytes different from `tsig_rdlen`, it fails with FormatError; otherwise the
MAC it compares against is recomputed by signing exactly the header bytes
before the count field, the count decremented by one, and the bytes from
after the count field up to `tsig_start`. -/
theorem C5_validate_reconstruction :
    (∀ (H : DigestFn) (wire : Bytes) (keyname : Name) (secret : Bytes) (now : Nat)
        (request_mac : Bytes) (tsig_start tsig_rdata tsig_rdlen : Nat)
        (ctx : Option HCtx) (multi first : Bool),
      12 ≤ wire.length → unpack16at wire 10 = 0 →
      validate H wire keyname secret now request_mac tsig_start tsig_rdata tsig_rdlen
        ctx multi first = .error .formatError) ∧
    (∀ (H : DigestFn) (wire : Bytes) (keyname : Name) (secret : Bytes) (now : Nat)
        (request_mac : Bytes) (tsig_start tsig_rdata tsig_rdlen : Nat)
        (ctx : Option HCtx) (multi first : Bool) (f : TsigFields),
      12 ≤ wire.length → unpack16at wire 10 ≠ 0 →
      parse_tsig wire tsig_rdata = .ok f → f.endPos ≠ tsig_rdata + tsig_rdlen →
      validate H wire keyname secret now request_mac tsig_start tsig_rdata tsig_rdlen
        ctx multi first = .error .formatError) ∧
    (∀ (H : DigestFn) (wire : Bytes) (keyname : Name) (secret : Bytes) (now : Nat)
        (request_mac : Bytes) (tsig_start tsig_rdata tsig_rdlen : Nat)
        (ctx : Option HCtx) (multi first : Bool) (f : TsigFields),
      12 ≤ wire.length → unpack16at wire 10 ≠ 0 →
      parse_tsig wire tsig_rdata = .ok f → f.endPos = tsig_rdata + tsig_rdlen →
      f.error = 0 →
      ¬((now : Int) < (f.time : Int) - (f.fudge : Int) ∨
        (f.time : Int) + (f.fudge : Int) < (now : Int)) →
      validate H wire keyname secret now request_mac tsig_start tsig_rdata tsig_rdlen
          ctx multi first =
        match sign H (wire.take 10 ++ pack16 (unpack16at wire 10 - 1) ++
            (wire.drop 12).take (tsig_start - 12)) keyname secret f.time f.fudge
            f.original_id f.error f.other_data request_mac ctx multi first
            (.name f.aname) with
        | .error e => .error e
        | .ok (_, our_mac, ctx2) =>
          if our_mac ≠ f.mac then .error .badSignature else .ok ctx2) := by
  refine ⟨?_, ?_, ?_⟩
  · intro H wire keyname secret now request_mac tsig_start tsig_rdata tsig_rdlen
      ctx multi first h12 hadc
    exact validate_adcount_zero h12 hadc
  · intro H wire keyname secret now request_mac tsig_start tsig_rdata tsig_rdlen
      ctx multi first f h12 hadc hp hend
    exact validate_endpos_ne h12 hadc hp hend
  · intro H wire keyname secret now request_mac tsig_start tsig_rdata tsig_rdlen
      ctx multi first f h12 hadc hp hend herr hwin
    rw [validate_unfold_ok h12 hadc hp hend, if_neg (by simp [herr]), if_neg hwin]

/-- Witness for C5: a message whose count field is zero is rejected with
FormatError. -/
theorem C5_validate_reconstruction_witness :
    validate H0 m0 key0 secret0 0 [] 12 12 0 none false true = .error .formatError :=
  C5_validate_reconstruction.1 H0 m0 key0 secret0 0 [] 12 12 0 none false true
    (by decide) (by decide)

/-- C6: a nonzero parsed error code makes `validate` fail with the translated
peer error — for every `now` and every digest provider, so before any
time-window check or MAC computation — and the translation table maps 16 to
PeerBadSignature, 17 to PeerBadKey, 18 to PeerBadTime, 22 to
PeerBadTruncation, and any other code to the unknown peer error carrying it. -/
theorem C6_peer_errors :
    (∀ (H : DigestFn) (wire : Bytes) (keyname : Name) (secret : Bytes) (now : Nat)
        (request_mac : Bytes) (tsig_start tsig_rdata tsig_rdlen : Nat)
        (ctx : Option HCtx) (multi first : Bool) (f : TsigFields),
      12 ≤ wire.length → unpack16at wire 10 ≠ 0 →
      parse_tsig wire tsig_rdata = .ok f → f.endPos = tsig_rdata + tsig_rdlen →
      f.error ≠ 0 →
      validate H wire keyname secret now request_mac tsig_start tsig_rdata tsig_rdlen
        ctx multi first = .error (peer_error_of f.error)) ∧
    peer_error_of 16 = .peerBadSignature ∧ peer_error_of 17 = .peerBadKey ∧
    peer_error_of 18 = .peerBadTime ∧ peer_error_of 22 = .peerBadTruncation ∧
    (∀ c, c ≠ 16 → c ≠ 17 → c ≠ 18 → c ≠ 22 → peer_error_of c = .peerError c) := by
  refine ⟨?_, rfl, rfl, rfl, rfl, ?_⟩
  · intro H wire keyname secret now request_mac tsig_start tsig_rdata tsig_rdlen
      ctx multi first f h12 hadc hp hend herr
    rw [validate_unfold_ok h12 hadc hp hend, if_pos herr]
  · intro c h16 h17 h18 h22
    unfold peer_error_of BADSIG BADKEY BADTIME BADTRUNC
    rw [if_neg h16, if_neg h17, if_neg h18, if_neg h22]

/-- The rdata of a message signed with peer error code 17 (BADKEY). -/
def rdata0e : Bytes :=
  match sign H0 m0 key0 secret0 1000000000 300 1234 17 [] [] none false true
      (.name HMAC_SHA256) with
  | .ok (r, _, _) => r
  | .error _ => []

/-- The signed message carrying error code 17. -/
def wire0e : Bytes := m0.take 10 ++ pack16 (unpack16at m0 10 + 1) ++ m0.drop 12 ++ rdata0e

/-- The fields `validate` parses out of `wire0e`. -/
def f0e : TsigFields :=
  match parse_tsig wire0e m0.length with
  | .ok f => f
  | .error _ => ⟨[], 0, 0, [], 0, 0, [], 0⟩

/-- Witness for C6: a TSIG record carrying error code 17 is rejected as
PeerBadKey, for an arbitrary `now`. -/
theorem C6_peer_errors_witness :
    validate H0 wire0e key0 secret0 0 [] m0.length m0.length rdata0e.length
      none false true = .error .peerBadKey :=
  (C6_peer_errors.1 H0 wire0e key0 secret0 0 [] m0.length m0.length rdata0e.length
    none false true f0e (by decide) (by decide) (by decide) (by decide)
    (by decide)).trans (by decide)

/-- C7: with parsed error code zero, `validate` fails with BadTime exactly
when `now` lies outside `[time - fudge, time + fudge]`, whatever the digest
provider computes; concretely, the scenario signed at time 1000000000 with
fudge 300 validates at `now = 1000000100` and fails with BadTime at
`now = 1000000500`. -/
theorem C7_time_window :
    (∀ (H : DigestFn) (wire : Bytes) (keyname : Name) (secret : Bytes) (now : Nat)
        (request_mac : Bytes) (tsig_start tsig_rdata tsig_rdlen : Nat)
        (ctx : Option HCtx) (multi first : Bool) (f : TsigFields),
      12 ≤ wire.length → unpack16at wire 10 ≠ 0 →
      parse_tsig wire tsig_rdata = .ok f → f.endPos = tsig_rdata + tsig_rdlen →
      f.error = 0 →
      (validate H wire keyname secret now request_mac tsig_start tsig_rdata tsig_rdlen
          ctx multi first = .error .badTime ↔
        ((now : Int) < (f.time : Int) - (f.fudge : Int) ∨
          (f.time : Int) + (f.fudge : Int) < (now : Int)))) ∧
    validate H0 wire0 key0 secret0 1000000100 [] m0.length m0.length rdata0.length
      none false true = .ok none ∧
    validate H0 wire0 key0 secret0 1000000500 [] m0.length m0.length rdata0.length
      none false true = .error .badTime := by
  refine ⟨?_, by decide, by decide⟩
  intro H wire keyname secret now request_mac tsig_start tsig_rdata tsig_rdlen
    ctx multi first f h12 hadc hp hend herr
  rw [validate_unfold_ok h12 hadc hp hend, if_neg (by simp [herr])]
  by_cases hwin : ((now : Int) < (f.time : Int) - (f.fudge : Int) ∨
      (f.time : Int) + (f.fudge : Int) < (now : Int))
  · rw [if_pos hwin]
    simp [hwin]
  · rw [if_neg hwin]
    constructor
    · intro hcon
      exfalso
      cases hs : sign H (wire.take 10 ++ pack16 (unpack16at wire 10 - 1) ++
          (wire.drop 12).take (tsig_start - 12)) keyname secret f.time f.fudge
          f.original_id f.error f.other_data request_mac ctx multi first
          (.name f.aname) with
      | error e =>
        rw [hs] at hcon
        simp only [Except.error.injEq] at hcon
        rw [hcon] at hs
        exact sign_ne_badTime H _ keyname secret f.time f.fudge f.original_id f.error
          f.other_data request_mac ctx multi first (.name f.aname) hs
      | ok x =>
        obtain ⟨a, b, c⟩ := x
        rw [hs] at hcon
        dsimp only at hcon
        split at hcon <;> simp at hcon
    · intro hw
      exact absurd hw hwin

/-- The fields `validate` parses out of `wire0`. -/
def f0 : TsigFields :=
  match parse_tsig wire0 m0.length with
  | .ok f => f
  | .error _ => ⟨[], 0, 0, [], 0, 0, [], 0⟩

/-- Witness for C7: at `now = 999999600`, outside the window, the concrete
scenario fails with BadTime. -/
theorem C7_time_window_witness :
    validate H0 wire0 key0 secret0 999999600 [] m0.length m0.length rdata0.length
      none false true = .error .badTime :=
  (C7_time_window.1 H0 wire0 key0 secret0 999999600 [] m0.length m0.length
    rdata0.length none false true f0 (by decide) (by decide) (by decide) (by decide)
    (by decide)).mpr (by decide)

/-- C8: on every rdata blob that `validate` parses successfully (consuming
`tsig_rdlen` exactly), `get_algorithm_and_mac` returns exactly the algorithm
name and MAC bytes `validate` parses; and once the name parses and the ten
fixed bytes are available, `get_algorithm_and_mac` fails with FormatError
exactly when name, fixed bytes and stated MAC length together would run past
`tsig_rdlen`. -/
theorem C8_peek_refines_validate :
    (∀ (wire : Bytes) (tsig_rdata tsig_rdlen : Nat) (f : TsigFields),
      parse_tsig wire tsig_rdata = .ok f → f.endPos = tsig_rdata + tsig_rdlen →
      get_algorithm_and_mac wire tsig_rdata tsig_rdlen = .ok (f.aname, f.mac)) ∧
    (∀ (wire : Bytes) (tsig_rdata tsig_rdlen : Nat) (aname : Name) (used : Nat),
      from_wire wire tsig_rdata = some (aname, used) →
      tsig_rdata + used + 10 ≤ wire.length →
      (get_algorithm_and_mac wire tsig_rdata tsig_rdlen = .error .formatError ↔
        tsig_rdlen < used + 10 + unpack16at wire (tsig_rdata + used + 8))) := by
  constructor
  · intro wire tsig_rdata tsig_rdlen f hp hend
    unfold parse_tsig at hp
    cases hfw : from_wire wire tsig_rdata with
    | none =>
      rw [hfw] at hp
      exact Except.noConfusion hp
    | some p =>
      obtain ⟨aname, used⟩ := p
      rw [hfw] at hp
      dsimp only at hp
      by_cases hg1 : wire.length < tsig_rdata + used + 10
      · rw [if_pos hg1] at hp
        exact Except.noConfusion hp
      · rw [if_neg hg1] at hp
        by_cases hg2 : wire.length < tsig_rdata + used + 10 +
            unpack16at wire (tsig_rdata + used + 8) + 6
        · rw [if_pos hg2] at hp
          exact Except.noConfusion hp
        · rw [if_neg hg2] at hp
          simp only [Except.ok.injEq] at hp
          subst hp
          dsimp only at hend ⊢
          unfold get_algorithm_and_mac
          rw [hfw]
          dsimp only
          rw [if_neg hg1, if_neg (by omega)]
  · intro wire tsig_rdata tsig_rdlen aname used hfw h10
    unfold get_algorithm_and_mac
    rw [hfw]
    dsimp only
    rw [if_neg (by omega)]
    by_cases hc : tsig_rdata + tsig_rdlen <
        tsig_rdata + used + 10 + unpack16at wire (tsig_rdata + used + 8)
    · rw [if_pos hc]
      simp only [true_iff]
      omega
    · rw [if_neg hc]
      constructor
      · intro hcon
        exact absurd hcon (by simp)
      · intro hlt
        omega

/-- Witness for C8: on the concrete signed message, peek returns the same
algorithm name and MAC that validate parses. -/
theorem C8_peek_refines_validate_witness :
    get_algorithm_and_mac wire0 m0.length rdata0.length = .ok (HMAC_SHA256, mac0) :=
  (C8_peek_refines_validate.1 wire0 m0.length rdata0.length f0 (by decide)
    (by decide)).trans (by decide)

/-- C9: `get_algorithm` normalizes a textual identifier to name form and
looks it up: an identifier absent from the registry fails with
UnsupportedAlgorithm (and, the function being pure, every repeated call
fails identically), while a present one returns the wire-name bytes and the
digest primitive. -/
theorem C9_algorithm_resolution :
    (∀ a : AlgId, lookupHash (normalize a) = none →
      get_algorithm a = .error .unsupportedAlgorithm) ∧
    (∀ (a : AlgId) (dm : DigestMod), lookupHash (normalize a) = some dm →
      get_algorithm a = .ok (toDigestable (normalize a), dm)) := by
  constructor
  · intro a h
    unfold get_algorithm
    rw [h]
  · intro a dm h
    unfold get_algorithm
    rw [h]

/-- Witness for C9: "hmac-foo" is absent and fails; "hmac-sha256" (as text)
resolves to its wire name and SHA-256. -/
theorem C9_algorithm_resolution_witness :
    get_algorithm (.text [104, 109, 97, 99, 45, 102, 111, 111]) =
        .error .unsupportedAlgorithm ∧
      get_algorithm (.text txtHmacSha256) =
        .ok (toDigestable (normalize (.text txtHmacSha256)), DigestMod.sha256) :=
  ⟨C9_algorithm_resolution.1 (.text [104, 109, 97, 99, 45, 102, 111, 111])
      (by decide),
    C9_algorithm_resolution.2 (.text txtHmacSha256) DigestMod.sha256 (by decide)⟩

/-- Counterexample to C10 as stated: on the concrete valid signed message the
peek consumes 55 of the 61 rdata bytes — strictly fewer — and succeeds, yet
`validate` does not reject the blob with FormatError (it accepts it), because
the remaining bytes are exactly the id/error/other-data suffix. -/
theorem C10_counterexample :
    from_wire wire0 m0.length = some (HMAC_SHA256, (toDigestable HMAC_SHA256).length) ∧
    (toDigestable HMAC_SHA256).length + 10 + mac0.length < rdata0.length ∧
    get_algorithm_and_mac wire0 m0.length rdata0.length = .ok (HMAC_SHA256, mac0) ∧
    validate H0 wire0 key0 secret0 1000000100 [] m0.length m0.length rdata0.length
      none false true ≠ .error .formatError := by
  refine ⟨by decide, by decide, by decide, by decide⟩

/-- C10 (amended): peek fails with FormatError only when the bytes it parses
(name, ten fixed bytes, MAC of the stated length) strictly exceed
`tsig_rdlen`, so it accepts every blob with trailing unparsed bytes after the
MAC; `validate` instead rejects a blob with FormatError exactly when its full
parse — which also consumes the 6-byte id/error/other-length block and the
other data — does not consume `tsig_rdlen` exactly. -/
theorem C10_peek_trailing_bytes :
    (∀ (wire : Bytes) (tsig_rdata tsig_rdlen : Nat) (aname : Name) (used : Nat),
      from_wire wire tsig_rdata = some (aname, used) →
      tsig_rdata + used + 10 ≤ wire.length →
      used + 10 + unpack16at wire (tsig_rdata + used + 8) ≤ tsig_rdlen →
      get_algorithm_and_mac wire tsig_rdata tsig_rdlen =
        .ok (aname, (wire.drop (tsig_rdata + used + 10)).take
          (unpack16at wire (tsig_rdata + used + 8)))) ∧
    (∀ (H : DigestFn) (wire : Bytes) (keyname : Name) (secret : Bytes) (now : Nat)
        (request_mac : Bytes) (tsig_start tsig_rdata tsig_rdlen : Nat)
        (ctx : Option HCtx) (multi first : Bool) (f : TsigFields),
      12 ≤ wire.length → unpack16at wire 10 ≠ 0 →
      parse_tsig wire tsig_rdata = .ok f → f.endPos ≠ tsig_rdata + tsig_rdlen →
      validate H wire keyname secret now request_mac tsig_start tsig_rdata tsig_rdlen
        ctx multi first = .error .formatError) := by
  constructor
  · intro wire tsig_rdata tsig_rdlen aname used hfw h10 hle
    unfold get_algorithm_and_mac
    rw [hfw]
    dsimp only
    rw [if_neg (by omega), if_neg (by omega)]
  · intro H wire keyname secret now request_mac tsig_start tsig_rdata tsig_rdlen
      ctx multi first f h12 hadc hp hend
    exact validate_endpos_ne h12 hadc hp hend

/-- Witness for C10 (amended): the concrete blob with 6 trailing bytes after
the MAC is accepted by peek. -/
theorem C10_peek_trailing_bytes_witness :
    get_algorithm_and_mac wire0 m0.length rdata0.length =
      .ok (HMAC_SHA256, (wire0.drop (m0.length + (toDigestable HMAC_SHA256).length + 10)).take
        (unpack16at wire0 (m0.length + (toDigestable HMAC_SHA256).length + 8))) :=
  C10_peek_trailing_bytes.1 wire0 m0.length rdata0.length HMAC_SHA256
    (toDigestable HMAC_SHA256).length (by decide) (by decide) (by decide)

end Tsig
